import Mathlib

/-!
# Verification of the frippy message-dispatch core

Shallow embedding of the dispatch/plugin-execution engine of the frippy IRC
bot (src/src/lib.rs and src/src/error.rs), together with theorems settling
the specification claims about it.

Conventions:
* Rust `HashMap<String, _>` values are embedded as association lists with
  unique keys; since a hash map does not preserve insertion order, iteration
  is modelled as an arbitrary permutation of the entries.
* Regular expressions (the `regex` crate is an external collaborator) are
  abstracted as match/capture oracles; `Regex::new` is a `compile` function
  that may fail, mirroring syntactically invalid patterns.
* `unwrap`/index panics are made explicit in a `Panic` error channel.
* Thread spawning is sequentialised: the events a worker would produce are
  appended to the trace of the round that spawned it.
-/

namespace Frippy

/-- Error kinds of the crate-wide error type (src/src/error.rs, `ErrorKind`). -/
inductive FrippyErrorKind where
  | connection
  | threadSpawn
  | url
  | tell
  | factoid
  | quote
  | remind
  | counter
  deriving DecidableEq

/-- The crate-wide error type: its top-level display text and the cause chain
below it (`e.causes().skip(1)` in src/src/error.rs). -/
structure FrippyError where
  kind : FrippyErrorKind
  display : String
  causes : List String
  deriving DecidableEq

/-- The text logged by `log_error` (src/src/error.rs): the error's own display
folded with every cause in its chain, separated by ": ". -/
def logText (e : FrippyError) : String :=
  e.causes.foldl (fun acc err => acc ++ ": " ++ err) e.display

/-- The IRC commands distinguished by the dispatch core (others are opaque). -/
inductive IrcCommand where
  | privmsg (target : String) (content : String)
  | join (channel : String)
  | other
  deriving DecidableEq

/-- An inbound IRC message.  `pfx` models `Message.prefix`; `sourceNick`
models the irc crate's `Message::source_nickname()` accessor (derived from
the prefix by the external irc crate, abstracted here as a field). -/
structure Msg where
  pfx : Option String
  sourceNick : Option String
  command : IrcCommand
  deriving DecidableEq

/-- Outcome of a plugin's non-blocking `execute` probe (plugin contract, as
used by src/src/lib.rs). -/
inductive ExecutionStatus where
  | done
  | err (e : FrippyError)
  | requiresThread

/-- A parsed plugin command: remaining tokens plus sender/reply-target. -/
structure PluginCommand where
  source : String
  target : String
  tokens : List String
  deriving DecidableEq

/-- The plugin (handler) contract: name plus the three dispatch entry points
used by src/src/lib.rs, polymorphic over the client type. -/
structure Plugin (C : Type) where
  name : String
  execute : C → Msg → ExecutionStatus
  executeThreaded : C → Msg → Except FrippyError Unit
  command : C → PluginCommand → Except FrippyError Unit

/-- Decidable equality for `Except` results (both components decidable). -/
instance {ε α : Type} [DecidableEq ε] [DecidableEq α] : DecidableEq (Except ε α) :=
  fun x y =>
    match x, y with
    | Except.ok a, Except.ok b =>
        if h : a = b then isTrue (h ▸ rfl)
        else isFalse fun hc => h (Except.ok.inj hc)
    | Except.error a, Except.error b =>
        if h : a = b then isTrue (h ▸ rfl)
        else isFalse fun hc => h (Except.error.inj hc)
    | Except.ok _, Except.error _ => isFalse fun hc => Except.noConfusion hc
    | Except.error _, Except.ok _ => isFalse fun hc => Except.noConfusion hc

/-- Rust `str::to_lowercase`, restricted to ASCII case mapping (the full
Unicode tables live in the external standard library; every name and option
the core compares is ASCII). -/
def toLowerStr (s : String) : String :=
  String.mk (s.data.map Char.toLower)

/-! ## HashMap embedding

Association lists with the operations used on `HashMap` by the source:
`insert` (replace on an existing key, otherwise append), keyed `get`, and
`remove`.  Key uniqueness is an invariant of maps built by these operations. -/

/-- `HashMap::insert`: replace the value under an existing key, otherwise
add the entry. -/
def hmInsert (k : String) (v : α) (m : List (String × α)) : List (String × α) :=
  if m.any (fun e => e.1 = k) then
    m.map (fun e => if e.1 = k then (k, v) else e)
  else
    m ++ [(k, v)]

/-- `HashMap::get`. -/
def hmGet (k : String) (m : List (String × α)) : Option α :=
  (m.find? (fun e => e.1 = k)).map (fun e => e.2)

/-- `HashMap::remove`: the removed value (if any) and the remaining map. -/
def hmRemove (k : String) (m : List (String × α)) : Option α × List (String × α) :=
  (hmGet k m, m.filter (fun e => e.1 ≠ k))

/-! ## The plugin registry (`ThreadedPlugins`, src/src/lib.rs lines 259-283) -/

/-- `ThreadedPlugins::add`: the plugin is stored under its lowercased name. -/
def ThreadedPlugins.add (r : List (String × Plugin C)) (p : Plugin C) :
    List (String × Plugin C) :=
  hmInsert (toLowerStr p.name) p r

/-- `ThreadedPlugins::remove`: lookup and removal under the lowercased name,
returning `some ()` exactly when an entry was removed. -/
def ThreadedPlugins.remove (r : List (String × Plugin C)) (name : String) :
    Option Unit × List (String × Plugin C) :=
  let res := hmRemove (toLowerStr name) r
  (res.1.map (fun _ => ()), res.2)

/-! ## Dispatch traces -/

/-- Observable events of one dispatch round: plugin entry-point invocations,
spawned worker threads and logged error texts. -/
inductive Event where
  | execCall (name : String)
  | execThreadedCall (name : String)
  | commandCall (name : String) (c : PluginCommand)
  | spawned (threadName : String)
  | logged (text : String)
  deriving DecidableEq

/-- The events produced for one registry entry during fan-out
(the body of the loop in `ThreadedPlugins::execute_plugins`,
src/src/lib.rs lines 290-323): `execute` is always called; an error outcome
is logged; `RequiresThread` spawns a worker running `execute_threaded`,
whose error is logged. -/
def pluginEvents (client : C) (message : Msg) (e : String × Plugin C) : List Event :=
  Event.execCall e.1 ::
    match e.2.execute client message with
    | ExecutionStatus.done => []
    | ExecutionStatus.err er => [Event.logged (logText er)]
    | ExecutionStatus.requiresThread =>
        Event.spawned e.1 :: Event.execThreadedCall e.1 ::
          match e.2.executeThreaded client message with
          | Except.error er => [Event.logged (logText er)]
          | Except.ok _ => []

/-- `ThreadedPlugins::execute_plugins` (src/src/lib.rs lines 287-324): the
loop iterates a clone of the plugins hash map; `order` is that snapshot in
the (arbitrary) iteration order the hash map yields. -/
def executePlugins (order : List (String × Plugin C)) (client : C) (message : Msg) :
    List Event :=
  order.flatMap (pluginEvents client message)

/-- Explicit panics of the source: `Vec` indexing out of bounds,
`Option::unwrap` on `None` (source nickname), and `Result::unwrap` on an
invalid regex pattern. -/
inductive Panic where
  | indexOutOfBounds
  | unwrapNone
  | regexUnwrap (pat : String)
  deriving DecidableEq

/-- `ThreadedPlugins::handle_command` (src/src/lib.rs lines 326-352):
index token 0 (panics when there is none), look the plugin up under the
lowercased token; on a miss return `Ok(())` with no events; on a hit remove
the first token and spawn a worker running the plugin's `command`, logging
its error.  `spawnFail = some s` models `thread::Builder::spawn` failing
with OS error text `s`, which `handle_command` converts to a `ThreadSpawn`
error and returns with `?`. -/
def handleCommand (r : List (String × Plugin C)) (client : C)
    (command : PluginCommand) (spawnFail : Option String) :
    Except Panic (Except FrippyError (List Event)) :=
  match command.tokens with
  | [] => Except.error Panic.indexOutOfBounds
  | t :: rest =>
    match hmGet (toLowerStr t) r with
    | none => Except.ok (Except.ok [])
    | some p =>
      match spawnFail with
      | some s =>
          Except.ok (Except.error
            { kind := FrippyErrorKind.threadSpawn
              display := "Failed to spawn thread"
              causes := [s] })
      | none =>
          let c : PluginCommand := { command with tokens := rest }
          Except.ok (Except.ok
            (Event.spawned t :: Event.commandCall p.name c ::
              match p.command client c with
              | Except.error e => [Event.logged (logText e)]
              | Except.ok _ => []))

/-! ## String operations (Rust `str::replace`, `str::split_whitespace`) -/

/-- Is `p` a (character-wise) leading segment of `l`?
Models Rust `str::starts_with`. -/
def leadsWith : List Char → List Char → Bool
  | [], _ => true
  | _ :: _, [] => false
  | a :: as, b :: bs => a = b && leadsWith as bs

/-- Rust `str::replace` on character lists: scan left to right, replacing
each non-overlapping occurrence of `pat` by `rep`; an empty pattern matches
at every character boundary (including the end).  Structural recursion on a
fuel argument (any fuel at least the list length is exact; each step
consumes at least one character). -/
def replaceChars (pat rep : List Char) : Nat → List Char → List Char
  | _, [] => if pat = [] then rep else []
  | 0, l => l
  | fuel + 1, c :: rest =>
    if pat = [] then
      rep ++ c :: replaceChars pat rep fuel rest
    else if leadsWith pat (c :: rest) then
      rep ++ replaceChars pat rep fuel ((c :: rest).drop pat.length)
    else
      c :: replaceChars pat rep fuel rest

/-- Rust `str::replace` on strings. -/
def rustReplace (s pat rep : String) : String :=
  String.mk (replaceChars pat.data rep.data s.data.length s.data)

/-- Rust `str::split_whitespace` on character lists: split on runs of
whitespace, yielding the non-empty maximal whitespace-free words. -/
def splitWhitespace : List Char → List (List Char)
  | [] => []
  | [c] => if c.isWhitespace then [] else [[c]]
  | c :: d :: rest =>
    if c.isWhitespace then
      splitWhitespace (d :: rest)
    else if d.isWhitespace then
      [c] :: splitWhitespace (d :: rest)
    else
      match splitWhitespace (d :: rest) with
      | [] => [[c]]
      | w :: ws => (c :: w) :: ws

/-! ## Command Parser -/

/-- Modelled from the spec: `PluginCommand::try_from` lives in src/plugin.rs,
which is not among the sources; only its call site (src/src/lib.rs line 245)
and the spec describe it.  Spec: "if the text begins with the prefix, strip
it and split the remainder on runs of whitespace into tokens; build
Command {tokens, source, target} from the message's sender/reply-target.
If the text does not begin with the prefix, produce no Command." -/
def PluginCommand.tryFrom (pfxStr : String) (m : Msg) : Option PluginCommand :=
  match m.command with
  | IrcCommand.privmsg target content =>
    if leadsWith pfxStr.data content.data then
      some { source := m.sourceNick.getD ""
             target := target
             tokens := (splitWhitespace (content.data.drop pfxStr.data.length)).map
                         (fun w => String.mk w) }
    else
      none
  | _ => none

/-- Modelled from the spec: re-joining tokens "with single spaces"
(the round-trip law of spec section 4.3). -/
def joinTokens : List (List Char) → List Char
  | [] => []
  | [w] => w
  | w :: ws => w ++ ' ' :: joinTokens ws

/-! ## Regex abstraction

The `regex` crate is an external collaborator; a compiled regex is
abstracted by its match and capture behaviour.  The named groups the source
reads are `username` and `message`. -/

/-- The named capture groups a successful regex match exposes to the core. -/
structure Caps where
  username : Option String
  message : Option String

/-- A compiled regex, abstracted as oracles for `is_match` and `captures`
(where `captures` returning `some` means the pattern matched). -/
structure Re where
  isMatch : String → Bool
  captures : String → Option Caps

/-! ## Bridge Rewriter (src/src/lib.rs lines 186-235) -/

/-- Lines 191-197: if `bridge_relay_format` is configured, compile it
(`unwrap` panics on an invalid pattern) and capture group `username` from
the sender nickname. -/
def relayUser (compile : String → Option Re) (opts : List (String × String))
    (nick : String) : Except Panic (Option String) :=
  match hmGet "bridge_relay_format" opts with
  | none => Except.ok none
  | some reStr =>
    match compile reStr with
    | none => Except.error (Panic.regexUnwrap reStr)
    | some re =>
      Except.ok ((re.captures nick).bind (fun caps => caps.username))

/-- Lines 199-218: decide whether the bridge stage is active
(`bridge_user.is_some() || nick == bridge_name`); if so apply
`bridge_ignore_regex` (dropping the message, `none`, on a match) and
`bridge_regex` (deriving the bridge user, if still absent, and the bridge
message).  Returns the pair `(bridge_user, bridge_message)` otherwise. -/
def bridgeDerive (compile : String → Option Re) (opts : List (String × String))
    (nick content : String) :
    Except Panic (Option (Option String × Option String)) :=
  match relayUser compile opts nick with
  | Except.error p => Except.error p
  | Except.ok bu0 =>
    if bu0.isSome || hmGet "bridge_name" opts = some nick then
      let afterIgnore : Except Panic (Option (Option String × Option String)) :=
        match hmGet "bridge_regex" opts with
        | none => Except.ok (some (bu0, none))
        | some reStr =>
          match compile reStr with
          | none => Except.error (Panic.regexUnwrap reStr)
          | some re =>
            match re.captures content with
            | none => Except.ok (some (bu0, none))
            | some caps =>
              Except.ok (some
                ((if bu0.isNone then caps.username else bu0), caps.message))
      match hmGet "bridge_ignore_regex" opts with
      | none => afterIgnore
      | some ig =>
        match compile ig with
        | none => Except.error (Panic.regexUnwrap ig)
        | some re =>
          if re.isMatch content then Except.ok none else afterIgnore
    else
      Except.ok (some (bu0, none))

/-- Lines 220-234: strip zero-width spaces from the derived user when
`bridge_remove_zws` is `"true"` (case-insensitively), substitute the user
for every literal occurrence of `nick` inside the message prefix, and
replace the message content when a bridge message was derived. -/
def applyRewrite (opts : List (String × String)) (message : Msg) (nick target : String)
    (bu bm : Option String) : Msg :=
  let m1 : Msg :=
    match bu with
    | none => message
    | some u =>
      let u' :=
        if (hmGet "bridge_remove_zws" opts).map toLowerStr = some "true" then
          rustReplace u "\u200B" ""
        else u
      { message with pfx := message.pfx.map (fun s => rustReplace s nick u') }
  match bm with
  | none => m1
  | some m => { m1 with command := IrcCommand.privmsg target m }

/-- The whole bridge stage (src/src/lib.rs lines 186-235): active only for a
PRIVMSG when client options are configured; `none` means the message was
dropped by the ignore pattern (the early `return Ok(())` of line 204).
The `source_nickname().unwrap()` of line 189 panics when the message has no
source nickname. -/
def bridgeRewrite (compile : String → Option Re)
    (options : Option (List (String × String))) (message : Msg) :
    Except Panic (Option Msg) :=
  match message.command, options with
  | IrcCommand.privmsg target content, some opts =>
    match message.sourceNick with
    | none => Except.error Panic.unwrapNone
    | some nick =>
      match bridgeDerive compile opts nick content with
      | Except.error p => Except.error p
      | Except.ok none => Except.ok none
      | Except.ok (some (bu, bm)) =>
          Except.ok (some (applyRewrite opts message nick target bu bm))
  | _, _ => Except.ok (some message)

/-! ## The per-message pipeline (`process_msg`, src/src/lib.rs lines 177-257) -/

/-- `process_msg`: bridge rewrite (possibly dropping the message), the JOIN
branch's `source_nickname().unwrap()` (line 239), command parsing from the
rewritten message, fan-out over the registry snapshot, and command routing
whose `ThreadSpawn` error is logged rather than returned (lines 250-254). -/
def processMsg (compile : String → Option Re)
    (options : Option (List (String × String)))
    (order : List (String × Plugin C)) (client : C) (pfxStr : String)
    (spawnFail : Option String) (message : Msg) :
    Except Panic (List Event) :=
  match bridgeRewrite compile options message with
  | Except.error p => Except.error p
  | Except.ok none => Except.ok []
  | Except.ok (some m) =>
    match m.command, m.sourceNick with
    | IrcCommand.join _, none => Except.error Panic.unwrapNone
    | _, _ =>
      let cmd := PluginCommand.tryFrom pfxStr m
      let evs := executePlugins order client m
      match cmd with
      | none => Except.ok evs
      | some c =>
        match handleCommand order client c spawnFail with
        | Except.error p => Except.error p
        | Except.ok (Except.error e) =>
            Except.ok (evs ++ [Event.logged ("Failed to handle command: " ++ e.display)])
        | Except.ok (Except.ok evs2) => Except.ok (evs ++ evs2)

/-! ## Helper lemmas about dispatch traces -/

/-- Any event produced for a registry entry occurs in the fan-out trace. -/
theorem mem_executePlugins {C : Type} (client : C) (m : Msg)
    {order : List (String × Plugin C)} {entry : String × Plugin C}
    (he : entry ∈ order) {ev : Event} (hev : ev ∈ pluginEvents client m entry) :
    ev ∈ executePlugins order client m :=
  List.mem_flatMap.mpr ⟨entry, he, hev⟩

/-- Projection selecting the `execute`-invocation events of a trace. -/
def execCallName : Event → Option String
  | Event.execCall n => some n
  | _ => none

/-- Each registry entry contributes exactly one `execute` invocation. -/
theorem execCalls_pluginEvents {C : Type} (client : C) (m : Msg)
    (e : String × Plugin C) :
    (pluginEvents client m e).filterMap execCallName = [e.1] := by
  unfold pluginEvents
  cases e.2.execute client m with
  | done => simp [execCallName]
  | err er => simp [execCallName]
  | requiresThread =>
      cases e.2.executeThreaded client m <;> simp [execCallName]

/-- The `execute` invocations of a fan-out round are exactly the iterated
snapshot's entries, in iteration order. -/
theorem execCalls_executePlugins {C : Type} (client : C) (m : Msg)
    (order : List (String × Plugin C)) :
    (executePlugins order client m).filterMap execCallName = order.map Prod.fst := by
  induction order with
  | nil => rfl
  | cons e rest ih =>
      simp only [executePlugins, List.flatMap_cons, List.filterMap_append,
        List.map_cons] at *
      rw [execCalls_pluginEvents, ih]
      rfl

/-- A trivial plugin used in concrete dispatch scenarios. -/
def donePlugin (name : String) : Plugin Unit :=
  { name := name
    execute := fun _ _ => ExecutionStatus.done
    executeThreaded := fun _ _ => Except.ok ()
    command := fun _ _ => Except.ok () }

/-- A non-PRIVMSG message used in concrete dispatch scenarios. -/
def otherMsg : Msg := { pfx := none, sourceNick := none, command := IrcCommand.other }

/-! ## C3 -/

/-- C3 (amended): the dispatcher iterates a snapshot of the registry taken at
the start of the round and calls `execute` on each registered handler exactly
once, in the (unspecified) hash-map iteration order — any permutation of the
registry.  The trace's `execute` calls are exactly the snapshot entries; they
are a permutation of the registered handlers, and each registered name is
probed exactly once when names are unique. -/
theorem fanout_each_handler_once {C : Type} (client : C) (m : Msg)
    (r order : List (String × Plugin C)) (hperm : order.Perm r) :
    (executePlugins order client m).filterMap execCallName = order.map Prod.fst
    ∧ ((executePlugins order client m).filterMap execCallName).Perm (r.map Prod.fst)
    ∧ (∀ n : String, (r.map Prod.fst).Nodup → n ∈ r.map Prod.fst →
        List.count n ((executePlugins order client m).filterMap execCallName) = 1) := by
  refine ⟨execCalls_executePlugins client m order, ?_, ?_⟩
  · rw [execCalls_executePlugins]
    exact hperm.map Prod.fst
  · intro n hnd hn
    rw [execCalls_executePlugins, (hperm.map Prod.fst).count_eq]
    exact (List.nodup_iff_count_eq_one.mp hnd) n hn

/-- C3, counterexample to the claim as stated: the registry is a hash map, so
an iteration order reversing the registration order
`[("a", A), ("b", B)]` is permitted, and under it the `execute` calls are not
in registration order. -/
theorem fanout_not_registration_order :
    ([("b", donePlugin "B"), ("a", donePlugin "A")]).Perm
        [("a", donePlugin "A"), ("b", donePlugin "B")]
    ∧ (executePlugins [("b", donePlugin "B"), ("a", donePlugin "A")] () otherMsg).filterMap
          execCallName
        ≠ ([("a", donePlugin "A"), ("b", donePlugin "B")]).map Prod.fst :=
  ⟨List.Perm.swap _ _ _, by decide⟩

/-- C3, witness. -/
theorem fanout_each_handler_once_witness :
    (executePlugins [("b", donePlugin "B"), ("a", donePlugin "A")] () otherMsg).filterMap
        execCallName
      = [("b", donePlugin "B"), ("a", donePlugin "A")].map Prod.fst :=
  (fanout_each_handler_once () otherMsg
      [("a", donePlugin "A"), ("b", donePlugin "B")]
      [("b", donePlugin "B"), ("a", donePlugin "A")]
      (List.Perm.swap _ _ _)).1

/-! ## C1 -/

/-- C1: in every fan-out round, a handler whose `execute` returns an error
has that error logged with its full cause chain (`logText`), every handler
in the round has `execute` called regardless of other handlers' failures,
and no handler-originated error reaches the caller: the only error
`handle_command` can return is a `ThreadSpawn` error, and a handler's
`command` error is logged inside the worker's trace instead. -/
theorem fanout_isolated_and_errors_never_reraised {C : Type} (client : C) (m : Msg)
    (order : List (String × Plugin C)) :
    (∀ (n : String) (p : Plugin C) (e : FrippyError), (n, p) ∈ order →
        p.execute client m = ExecutionStatus.err e →
        Event.logged (logText e) ∈ executePlugins order client m)
    ∧ (∀ (n : String) (p : Plugin C), (n, p) ∈ order →
        Event.execCall n ∈ executePlugins order client m)
    ∧ (∀ (r : List (String × Plugin C)) (c : PluginCommand) (sf : Option String)
        (e : FrippyError),
        handleCommand r client c sf = Except.ok (Except.error e) →
        e.kind = FrippyErrorKind.threadSpawn)
    ∧ (∀ (r : List (String × Plugin C)) (c : PluginCommand) (t : String)
        (rest : List String) (p : Plugin C) (e : FrippyError) (evs : List Event),
        c.tokens = t :: rest → hmGet (toLowerStr t) r = some p →
        p.command client { c with tokens := rest } = Except.error e →
        handleCommand r client c none = Except.ok (Except.ok evs) →
        Event.logged (logText e) ∈ evs) := by
  refine ⟨?_, ?_, ?_, ?_⟩
  · intro n p e hmem hexec
    exact mem_executePlugins client m hmem (by simp [pluginEvents, hexec])
  · intro n p hmem
    exact mem_executePlugins client m hmem (by simp [pluginEvents])
  · intro r c sf e h
    match hc : c.tokens with
    | [] => simp [handleCommand, hc] at h
    | t :: rest =>
      match hg : hmGet (toLowerStr t) r with
      | none => simp [handleCommand, hc, hg] at h
      | some p =>
        match sf with
        | none => simp [handleCommand, hc, hg] at h
        | some s =>
          simp [handleCommand, hc, hg] at h
          rw [← h]
  · intro r c t rest p e evs htok hget hcmd hhc
    simp [handleCommand, htok, hget, hcmd] at hhc
    rw [← hhc]
    simp

/-- A plugin whose `execute` fails with a fixed error, used in concrete
dispatch scenarios. -/
def errPlugin (name : String) (e : FrippyError) : Plugin Unit :=
  { name := name
    execute := fun _ _ => ExecutionStatus.err e
    executeThreaded := fun _ _ => Except.ok ()
    command := fun _ _ => Except.ok () }

/-- A concrete error with a non-trivial cause chain. -/
def urlErr : FrippyError :=
  { kind := FrippyErrorKind.url
    display := "A Url error has occured"
    causes := ["io failure"] }

/-- C1, witness: with an error-returning handler registered before another
handler, the error is logged with its chain and the later handler still
executes. -/
theorem fanout_isolated_witness :
    Event.logged (logText urlErr)
      ∈ executePlugins [("x", errPlugin "X" urlErr), ("a", donePlugin "A")] () otherMsg
    ∧ Event.execCall "a"
      ∈ executePlugins [("x", errPlugin "X" urlErr), ("a", donePlugin "A")] () otherMsg :=
  ⟨(fanout_isolated_and_errors_never_reraised () otherMsg _).1 "x" (errPlugin "X" urlErr)
      urlErr (by simp) rfl,
   (fanout_isolated_and_errors_never_reraised () otherMsg _).2.1 "a" (donePlugin "A")
     (by simp)⟩

/-! ## C5 -/

/-- C5: `execute_threaded` is invoked for a message only for a handler whose
`execute` returned `RequiresThread` for that same message (never after `Done`
or an error), and an error it returns is logged by the caller, never
propagated. -/
theorem execute_threaded_only_after_requires_thread {C : Type} (client : C) (m : Msg)
    (order : List (String × Plugin C)) :
    (∀ n : String, Event.execThreadedCall n ∈ executePlugins order client m →
        ∃ p : Plugin C, (n, p) ∈ order
          ∧ p.execute client m = ExecutionStatus.requiresThread)
    ∧ (∀ (n : String) (p : Plugin C) (e : FrippyError), (n, p) ∈ order →
        p.execute client m = ExecutionStatus.requiresThread →
        p.executeThreaded client m = Except.error e →
        Event.logged (logText e) ∈ executePlugins order client m) := by
  constructor
  · intro n hmem
    obtain ⟨⟨n', p'⟩, hin, hev⟩ := List.mem_flatMap.mp hmem
    match hex : p'.execute client m with
    | ExecutionStatus.done => simp [pluginEvents, hex] at hev
    | ExecutionStatus.err e => simp [pluginEvents, hex] at hev
    | ExecutionStatus.requiresThread =>
        have hn : n = n' := by
          cases het : p'.executeThreaded client m <;>
            simpa [pluginEvents, hex, het] using hev
        subst hn
        exact ⟨p', hin, hex⟩
  · intro n p e hmem hexec het
    exact mem_executePlugins client m hmem (by simp [pluginEvents, hexec, het])

/-- A plugin whose `execute` defers to a thread, used in concrete dispatch
scenarios. -/
def threadPlugin (name : String) : Plugin Unit :=
  { name := name
    execute := fun _ _ => ExecutionStatus.requiresThread
    executeThreaded := fun _ _ => Except.ok ()
    command := fun _ _ => Except.ok () }

/-- C5, witness. -/
theorem execute_threaded_witness :
    ∃ p : Plugin Unit,
      ("t", p) ∈ [("t", threadPlugin "T")]
      ∧ p.execute () otherMsg = ExecutionStatus.requiresThread :=
  (execute_threaded_only_after_requires_thread () otherMsg [("t", threadPlugin "T")]).1
    "t" (by simp [executePlugins, pluginEvents, threadPlugin])

/-! ## C2 -/

/-- Recogniser for `command`-invocation events. -/
def isCommandCall : Event → Bool
  | Event.commandCall _ _ => true
  | _ => false

/-- C2 (amended): for every Command with at least one token, `handle_command`
case-folds the first token; an unregistered token is a silent no-op (success,
no handler invoked); a registered token removes the first token and spawns
exactly one worker invoking the matched handler's `command` with the
remaining tokens. -/
theorem route_command_single_invocation {C : Type} (r : List (String × Plugin C))
    (client : C) (cmd : PluginCommand) (t : String) (rest : List String)
    (htok : cmd.tokens = t :: rest) :
    (hmGet (toLowerStr t) r = none →
        handleCommand r client cmd none = Except.ok (Except.ok []))
    ∧ (∀ p : Plugin C, hmGet (toLowerStr t) r = some p →
        ∃ evs : List Event,
          handleCommand r client cmd none = Except.ok (Except.ok evs)
          ∧ Event.spawned t ∈ evs
          ∧ Event.commandCall p.name { cmd with tokens := rest } ∈ evs
          ∧ evs.countP isCommandCall = 1) := by
  constructor
  · intro hg
    simp [handleCommand, htok, hg]
  · intro p hg
    match hc : p.command client { cmd with tokens := rest } with
    | Except.error e =>
        refine ⟨[Event.spawned t, Event.commandCall p.name { cmd with tokens := rest },
          Event.logged (logText e)], ?_, by simp, by simp, ?_⟩
        · simp [handleCommand, htok, hg, hc]
        · simp [List.countP_cons, isCommandCall]
    | Except.ok u =>
        refine ⟨[Event.spawned t, Event.commandCall p.name { cmd with tokens := rest }],
          ?_, by simp, by simp, ?_⟩
        · simp [handleCommand, htok, hg, hc]
        · simp [List.countP_cons, isCommandCall]

/-- C2, counterexample to the claim as stated: a Command with an empty token
sequence (which the Command Parser produces for a bare prefix) makes
`handle_command` index `tokens[0]` out of bounds — a panic, not a silent
no-op. -/
theorem route_command_empty_tokens_panics :
    handleCommand [("currency", donePlugin "Currency")] ()
        { source := "bob", target := "#chan", tokens := [] } none
      = Except.error Panic.indexOutOfBounds := rfl

/-- C2, witness: routing tokens `["currency","1","eur","usd"]` invokes the
currency handler's `command` with tokens `["1","eur","usd"]`, exactly once. -/
theorem route_command_witness :
    ∃ evs : List Event,
      handleCommand [("currency", donePlugin "Currency")] ()
          { source := "bob", target := "#chan",
            tokens := ["currency", "1", "eur", "usd"] } none
        = Except.ok (Except.ok evs)
      ∧ Event.spawned "currency" ∈ evs
      ∧ Event.commandCall (donePlugin "Currency").name
          { source := "bob", target := "#chan", tokens := ["1", "eur", "usd"] } ∈ evs
      ∧ evs.countP isCommandCall = 1 :=
  (route_command_single_invocation [("currency", donePlugin "Currency")] ()
      { source := "bob", target := "#chan", tokens := ["currency", "1", "eur", "usd"] }
      "currency" ["1", "eur", "usd"] rfl).2 (donePlugin "Currency") rfl

/-! ## C9: registry lemmas -/

/-- Inserting under key `k` makes `k` retrievable, with the new value. -/
theorem hmGet_hmInsert (k : String) (v : α) (m : List (String × α)) :
    hmGet k (hmInsert k v m) = some v := by
  unfold hmInsert
  by_cases h : m.any (fun e => e.1 = k) = true
  · rw [if_pos h]
    induction m with
    | nil => simp at h
    | cons e rest ih =>
        by_cases he : e.1 = k
        · simp [hmGet, List.find?, he]
        · have hrest : rest.any (fun e => e.1 = k) = true := by
            simpa [List.any_cons, he] using h
          simpa [hmGet, List.find?, he] using ih hrest
  · rw [if_neg h]
    induction m with
    | nil => simp [hmGet, List.find?]
    | cons e rest ih =>
        have he : ¬e.1 = k := by
          intro hk
          exact h (by simp [List.any_cons, hk])
        have hrest : ¬rest.any (fun e => e.1 = k) = true := by
          intro hk
          exact h (by simp [List.any_cons, hk])
        simpa [hmGet, List.find?, he] using ih hrest

/-- The keys of a map are unchanged by inserting an already-present key and
extended by an absent one. -/
theorem keys_hmInsert (k : String) (v : α) (m : List (String × α)) :
    (hmInsert k v m).map Prod.fst
      = if m.any (fun e => e.1 = k) then m.map Prod.fst
        else m.map Prod.fst ++ [k] := by
  unfold hmInsert
  by_cases h : m.any (fun e => e.1 = k) = true
  · rw [if_pos h, if_pos h, List.map_map]
    apply List.map_congr_left
    intro e _
    by_cases he : e.1 = k
    · simp [he]
    · simp [he]
  · rw [if_neg h, if_neg h]
    simp

/-- Insertion preserves key uniqueness. -/
theorem nodup_keys_hmInsert (k : String) (v : α) (m : List (String × α))
    (h : (m.map Prod.fst).Nodup) : ((hmInsert k v m).map Prod.fst).Nodup := by
  rw [keys_hmInsert]
  by_cases hany : m.any (fun e => e.1 = k) = true
  · rwa [if_pos hany]
  · rw [if_neg hany]
    refine List.nodup_append.mpr ⟨h, List.nodup_singleton k, ?_⟩
    intro a ha hk
    rw [List.mem_singleton] at hk
    subst hk
    obtain ⟨e, hem, he⟩ := List.mem_map.mp ha
    exact hany (List.any_eq_true.mpr ⟨e, hem, by simp [he]⟩)

/-- Removing a present key from a map with unique keys removes exactly one
entry. -/
theorem length_filter_key (k : String) (m : List (String × α))
    (hnd : (m.map Prod.fst).Nodup) (hk : k ∈ m.map Prod.fst) :
    (m.filter (fun e => e.1 ≠ k)).length + 1 = m.length := by
  induction m with
  | nil => simp at hk
  | cons e rest ih =>
      simp only [List.map_cons, List.nodup_cons] at hnd
      by_cases he : e.1 = k
      · have hnone : rest.filter (fun x => x.1 ≠ k) = rest := by
          apply List.filter_eq_self.mpr
          intro a ha
          have hak : a.1 ≠ k := by
            intro hak
            exact hnd.1 (he ▸ hak ▸ List.mem_map_of_mem Prod.fst ha)
          simp [hak]
        have hpe : (decide (e.1 ≠ k)) = false := by simp [he]
        rw [List.filter_cons, hpe, if_neg Bool.false_ne_true, hnone, List.length_cons]
      · have hkrest : k ∈ rest.map Prod.fst := by
          rcases List.mem_cons.mp hk with h1 | h1
          · exact absurd h1.symm he
          · exact h1
        have hlen := ih hnd.2 hkrest
        have hpe : (decide (e.1 ≠ k)) = true := by simp [he]
        rw [List.filter_cons, hpe, if_pos rfl]
        simp only [List.length_cons]
        omega

/-- A freshly inserted key is present. -/
theorem mem_keys_hmInsert (k : String) (v : α) (m : List (String × α)) :
    k ∈ (hmInsert k v m).map Prod.fst := by
  rw [keys_hmInsert]
  by_cases h : m.any (fun e => e.1 = k) = true
  · rw [if_pos h]
    obtain ⟨e, hem, he⟩ := List.any_eq_true.mp h
    simp only [decide_eq_true_eq] at he
    exact he ▸ List.mem_map_of_mem Prod.fst hem
  · rw [if_neg h]
    simp

/-- C9: on a registry with unique (case-folded) names, `register(h)` followed
by `unregister(name)` for any case variant of `h`'s name succeeds and removes
exactly one entry, while `unregister` of a name not registered under
case-folding returns `none` and leaves the registry unchanged. -/
theorem registry_register_unregister {C : Type} (r : List (String × Plugin C))
    (p : Plugin C) (s : String) :
    ((r.map Prod.fst).Nodup → toLowerStr s = toLowerStr p.name →
        (ThreadedPlugins.remove (ThreadedPlugins.add r p) s).1 = some ()
        ∧ ((ThreadedPlugins.remove (ThreadedPlugins.add r p) s).2).length + 1
            = (ThreadedPlugins.add r p).length)
    ∧ ((∀ e ∈ r, e.1 ≠ toLowerStr s) →
        ThreadedPlugins.remove r s = (none, r)) := by
  constructor
  · intro hnd hs
    unfold ThreadedPlugins.remove hmRemove ThreadedPlugins.add
    constructor
    · simp [hs, hmGet_hmInsert]
    · simp only [hs]
      exact length_filter_key (toLowerStr p.name) _
        (nodup_keys_hmInsert _ _ _ hnd)
        (mem_keys_hmInsert _ _ _)
  · intro habs
    have h1 : r.find? (fun e => e.1 = toLowerStr s) = none :=
      List.find?_eq_none.mpr (fun e he => by simpa using habs e he)
    have h2 : r.filter (fun e => e.1 ≠ toLowerStr s) = r :=
      List.filter_eq_self.mpr (fun e he => by simpa using habs e he)
    unfold ThreadedPlugins.remove hmRemove hmGet
    rw [h1, h2]
    rfl

/-- C9, witness: a handler registered as `help` is found and removed under
the name `Help`; unregistering an unknown name is a no-op. -/
theorem registry_register_unregister_witness :
    ((ThreadedPlugins.remove (ThreadedPlugins.add ([] : List (String × Plugin Unit))
        (donePlugin "help")) "Help").1 = some ()
      ∧ ((ThreadedPlugins.remove (ThreadedPlugins.add ([] : List (String × Plugin Unit))
        (donePlugin "help")) "Help").2).length + 1
          = (ThreadedPlugins.add ([] : List (String × Plugin Unit))
              (donePlugin "help")).length)
    ∧ ThreadedPlugins.remove [("help", donePlugin "help")] "missing"
        = (none, [("help", donePlugin "help")]) :=
  ⟨(registry_register_unregister ([] : List (String × Plugin Unit))
      (donePlugin "help") "Help").1 (by simp) rfl,
   (registry_register_unregister [("help", donePlugin "help")]
      (donePlugin "help") "missing").2 (by decide)⟩

/-! ## Command Parser lemmas -/

/-- Unfolding equation for `splitWhitespace` on lists of length at least 2. -/
theorem splitWhitespace_cons_cons (c d : Char) (rest : List Char) :
    splitWhitespace (c :: d :: rest) =
      if c.isWhitespace then splitWhitespace (d :: rest)
      else if d.isWhitespace then [c] :: splitWhitespace (d :: rest)
      else
        match splitWhitespace (d :: rest) with
        | [] => [[c]]
        | w :: ws => (c :: w) :: ws := rfl

/-- Unfolding equation for `splitWhitespace` on singletons. -/
theorem splitWhitespace_singleton (c : Char) :
    splitWhitespace [c] = if c.isWhitespace then [] else [[c]] := rfl

/-- The words produced by `splitWhitespace` are non-empty and whitespace-free. -/
theorem splitWhitespace_wellformed (l : List Char) :
    ∀ w ∈ splitWhitespace l, w ≠ [] ∧ ∀ c ∈ w, c.isWhitespace = false := by
  induction l with
  | nil => simp [splitWhitespace]
  | cons c tail ih =>
      cases tail with
      | nil =>
          by_cases hc : c.isWhitespace = true
          · simp [splitWhitespace_singleton, hc]
          · intro w hw
            rw [splitWhitespace_singleton, if_neg (by simp [hc])] at hw
            simp only [List.mem_singleton] at hw
            subst hw
            refine ⟨by simp, ?_⟩
            intro x hx
            rw [List.mem_singleton] at hx
            subst hx
            simpa using hc
      | cons d rest =>
          by_cases hc : c.isWhitespace = true
          · rw [splitWhitespace_cons_cons, if_pos hc]
            exact ih
          · by_cases hd : d.isWhitespace = true
            · intro w hw
              rw [splitWhitespace_cons_cons, if_neg (by simp [hc]), if_pos hd] at hw
              rcases List.mem_cons.mp hw with h1 | h1
              · subst h1
                refine ⟨by simp, ?_⟩
                intro x hx
                rw [List.mem_singleton] at hx
                subst hx
                simpa using hc
              · exact ih w h1
            · intro w hw
              rw [splitWhitespace_cons_cons, if_neg (by simp [hc]),
                if_neg (by simp [hd])] at hw
              cases hsp : splitWhitespace (d :: rest) with
              | nil =>
                  rw [hsp] at hw
                  simp only [List.mem_singleton] at hw
                  subst hw
                  refine ⟨by simp, ?_⟩
                  intro x hx
                  rw [List.mem_singleton] at hx
                  subst hx
                  simpa using hc
              | cons w0 ws =>
                  rw [hsp] at hw
                  rcases List.mem_cons.mp hw with h1 | h1
                  · subst h1
                    have hw0 := ih w0 (hsp ▸ List.mem_cons_self w0 ws)
                    refine ⟨by simp, ?_⟩
                    intro x hx
                    rcases List.mem_cons.mp hx with h2 | h2
                    · subst h2
                      simpa using hc
                    · exact hw0.2 x h2
                  · exact ih w (hsp ▸ List.mem_cons_of_mem w0 h1)

/-- A whitespace-free word at the head of the input, followed by nothing or
by a space, is split off whole. -/
theorem splitWhitespace_word_append (cs : List Char)
    (hcs : ∀ x ∈ cs, x.isWhitespace = false) (t : List Char)
    (ht : t = [] ∨ ∃ u, t = ' ' :: u) (c : Char) (hc : c.isWhitespace = false) :
    splitWhitespace (c :: (cs ++ t)) = (c :: cs) :: splitWhitespace t := by
  induction cs generalizing c with
  | nil =>
      rcases ht with h | ⟨u, h⟩ <;> subst h
      · simp only [List.nil_append]
        rw [splitWhitespace_singleton, if_neg (by simp [hc])]
        rfl
      · simp only [List.nil_append]
        rw [splitWhitespace_cons_cons, if_neg (by simp [hc]), if_pos (by decide)]
  | cons c' cs' ih =>
      have hc' : c'.isWhitespace = false := hcs c' (by simp)
      have hcs' : ∀ x ∈ cs', x.isWhitespace = false := fun x hx => hcs x (by simp [hx])
      have hrec := ih hcs' c' hc'
      simp only [List.cons_append]
      rw [splitWhitespace_cons_cons, if_neg (by simp [hc]), if_neg (by simp [hc'])]
      rw [hrec]

/-- Round-trip: splitting the single-space join of non-empty whitespace-free
words yields the words back. -/
theorem splitWhitespace_joinTokens (tokens : List (List Char))
    (h : ∀ w ∈ tokens, w ≠ [] ∧ ∀ c ∈ w, c.isWhitespace = false) :
    splitWhitespace (joinTokens tokens) = tokens := by
  induction tokens with
  | nil => rfl
  | cons w ws ih =>
      obtain ⟨hne, hchars⟩ := h w (by simp)
      obtain ⟨c, cs, rfl⟩ : ∃ c cs, w = c :: cs := by
        cases w with
        | nil => exact absurd rfl hne
        | cons c cs => exact ⟨c, cs, rfl⟩
      have hc : c.isWhitespace = false := hchars c (by simp)
      have hcs : ∀ x ∈ cs, x.isWhitespace = false := fun x hx => hchars x (by simp [hx])
      cases ws with
      | nil =>
          have habs := splitWhitespace_word_append cs hcs [] (Or.inl rfl) c hc
          simpa [joinTokens] using habs
      | cons w' ws' =>
          have habs := splitWhitespace_word_append cs hcs
            (' ' :: joinTokens (w' :: ws')) (Or.inr ⟨_, rfl⟩) c hc
          have hws : splitWhitespace (' ' :: joinTokens (w' :: ws'))
              = splitWhitespace (joinTokens (w' :: ws')) := by
            cases hj : joinTokens (w' :: ws') with
            | nil => rfl
            | cons a as => rw [splitWhitespace_cons_cons, if_pos (by decide)]
          rw [show joinTokens ((c :: cs) :: w' :: ws')
              = (c :: cs) ++ ' ' :: joinTokens (w' :: ws') from rfl]
          rw [List.cons_append, habs, hws, ih (fun x hx => h x (by simp [hx]))]

/-- A list is a leading segment of itself followed by anything. -/
theorem leadsWith_append (p x : List Char) : leadsWith p (p ++ x) = true := by
  induction p with
  | nil => rfl
  | cons a as ih => simp [leadsWith, ih]

/-! ## C7 -/

/-- A PRIVMSG from bob to #chan used in concrete parser scenarios. -/
def bobMsg (content : String) : Msg :=
  { pfx := none
    sourceNick := some "bob"
    command := IrcCommand.privmsg "#chan" content }

/-- C7: text beginning with the configured prefix parses to a Command whose
tokens are the whitespace-split remainder; text not beginning with the prefix
parses to no Command; concretely with prefix ".": ".tell bob hi" yields
tokens ["tell","bob","hi"], "tell bob hi" yields no Command, and "." alone
yields a Command with an empty token sequence. -/
theorem command_parse_examples (pfxStr : String) (m : Msg) (target content : String)
    (hcmd : m.command = IrcCommand.privmsg target content) :
    (leadsWith pfxStr.data content.data = true →
        PluginCommand.tryFrom pfxStr m
          = some { source := m.sourceNick.getD "", target := target,
                   tokens := (splitWhitespace
                     (content.data.drop pfxStr.data.length)).map (fun w => String.mk w) })
    ∧ (leadsWith pfxStr.data content.data = false →
        PluginCommand.tryFrom pfxStr m = none)
    ∧ ((PluginCommand.tryFrom "." (bobMsg ".tell bob hi")).map PluginCommand.tokens
        = some ["tell", "bob", "hi"])
    ∧ (PluginCommand.tryFrom "." (bobMsg "tell bob hi") = none)
    ∧ ((PluginCommand.tryFrom "." (bobMsg ".")).map PluginCommand.tokens
        = some []) := by
  refine ⟨?_, ?_, by decide, by decide, by decide⟩
  · intro h
    simp [PluginCommand.tryFrom, hcmd, h]
  · intro h
    simp [PluginCommand.tryFrom, hcmd, h]

/-- C7, witness. -/
theorem command_parse_examples_witness :
    (PluginCommand.tryFrom "." (bobMsg ".tell bob hi")).map PluginCommand.tokens
      = some ["tell", "bob", "hi"] :=
  (command_parse_examples "." (bobMsg ".tell bob hi") "#chan" ".tell bob hi"
      rfl).2.2.1

/-! ## C8 -/

/-- C8: round-trip law — re-joining the produced tokens with single spaces
and prepending the prefix yields a text that the parser accepts and parses
to the very same Command, i.e. it reproduces the original modulo whitespace
collapsing. -/
theorem command_parse_roundtrip (pfxStr : String) (m : Msg) (target content : String)
    (c : PluginCommand) (hcmd : m.command = IrcCommand.privmsg target content)
    (hp : PluginCommand.tryFrom pfxStr m = some c) :
    PluginCommand.tryFrom pfxStr
        { m with
          command := IrcCommand.privmsg target (String.mk
            (pfxStr.data ++ joinTokens (c.tokens.map String.data))) }
      = some c := by
  have hp' : (if leadsWith pfxStr.data content.data = true then
      some { source := m.sourceNick.getD "", target := target,
             tokens := (splitWhitespace (content.data.drop pfxStr.data.length)).map
               (fun w => String.mk w) } else none) = some c := by
    rw [← hp]
    unfold PluginCommand.tryFrom
    rw [hcmd]
  by_cases hlw : leadsWith pfxStr.data content.data = true
  · rw [if_pos hlw] at hp'
    have hc := Option.some.inj hp'
    have htoks : c.tokens
        = (splitWhitespace (content.data.drop pfxStr.data.length)).map
            (fun w => String.mk w) := by
      rw [← hc]
    have hdata : c.tokens.map String.data
        = splitWhitespace (content.data.drop pfxStr.data.length) := by
      rw [htoks, List.map_map]
      have hcomp : (String.data ∘ fun w : List Char => String.mk w)
          = fun w : List Char => w := funext fun _ => rfl
      rw [hcomp, List.map_id']
    show (if leadsWith pfxStr.data
        (String.mk (pfxStr.data ++ joinTokens (c.tokens.map String.data))).data = true then
      some { source := m.sourceNick.getD "", target := target,
             tokens := (splitWhitespace
               ((String.mk (pfxStr.data ++ joinTokens
                 (c.tokens.map String.data))).data.drop pfxStr.data.length)).map
               (fun w => String.mk w) } else none) = some c
    rw [if_pos (leadsWith_append pfxStr.data _)]
    rw [show (String.mk (pfxStr.data ++ joinTokens (c.tokens.map String.data))).data
        = pfxStr.data ++ joinTokens (c.tokens.map String.data) from rfl]
    rw [List.drop_left, hdata,
      splitWhitespace_joinTokens _ (splitWhitespace_wellformed _), ← htoks, ← hc]
  · rw [if_neg hlw] at hp'
    exact absurd hp'.symm (by simp)

/-- C8, witness: parsing ".tell   bob hi" (with redundant whitespace) and
re-joining reproduces tokens ["tell","bob","hi"]. -/
theorem command_parse_roundtrip_witness :
    PluginCommand.tryFrom "."
        { bobMsg ".tell   bob hi" with
          command := IrcCommand.privmsg "#chan" (String.mk
            ((".").data ++ joinTokens
              ((["tell", "bob", "hi"] : List String).map String.data))) }
      = some { source := "bob", target := "#chan", tokens := ["tell", "bob", "hi"] } :=
  command_parse_roundtrip "." (bobMsg ".tell   bob hi") "#chan" ".tell   bob hi"
    { source := "bob", target := "#chan", tokens := ["tell", "bob", "hi"] }
    rfl (by decide)

/-! ## C4 -/

/-- C4 (amended): when the bridge stage is active in the code's sense — the
relay_format pattern produced a `username` capture, or the sender equals the
configured bridge_name — and a configured ignore pattern matches the message
content, the message is dropped entirely: processing succeeds with an empty
trace (no handler `execute`, no `execute_threaded`, no `command`, no parsed
command, no reply). -/
theorem bridge_ignore_drops_message {C : Type} (compile : String → Option Re)
    (opts : List (String × String)) (order : List (String × Plugin C)) (client : C)
    (pfxStr : String) (sf : Option String) (m : Msg) (target content nick ig : String)
    (igre : Re) (bu0 : Option String)
    (hcmd : m.command = IrcCommand.privmsg target content)
    (hnick : m.sourceNick = some nick)
    (hrelay : relayUser compile opts nick = Except.ok bu0)
    (hactive : bu0.isSome = true ∨ hmGet "bridge_name" opts = some nick)
    (hig : hmGet "bridge_ignore_regex" opts = some ig)
    (higc : compile ig = some igre)
    (hmatch : igre.isMatch content = true) :
    processMsg compile (some opts) order client pfxStr sf m = Except.ok [] := by
  have hd : bridgeDerive compile opts nick content = Except.ok none := by
    rcases hactive with h | h <;>
      simp [bridgeDerive, hrelay, h, hig, higc, hmatch]
  have hb : bridgeRewrite compile (some opts) m = Except.ok none := by
    simp [bridgeRewrite, hcmd, hnick, hd]
  simp [processMsg, hb]

/-- A relay regex that matches every sender but captures no `username`. -/
def c4RelayRe : Re :=
  { isMatch := fun _ => true
    captures := fun _ => some { username := none, message := none } }

/-- An ignore regex matching every content. -/
def c4IgnoreRe : Re :=
  { isMatch := fun _ => true
    captures := fun _ => none }

/-- A compile oracle for the two patterns above. -/
def c4Compile : String → Option Re :=
  fun s =>
    if s = "relayfmt" then some c4RelayRe
    else if s = "ignpat" then some c4IgnoreRe
    else none

/-- Bridge options: a relay format and an ignore pattern, no bridge_name. -/
def c4Opts : List (String × String) :=
  [("bridge_relay_format", "relayfmt"), ("bridge_ignore_regex", "ignpat")]

/-- A PRIVMSG from the relay bot. -/
def relayMsg : Msg :=
  { pfx := some "relaybot!r@h"
    sourceNick := some "relaybot"
    command := IrcCommand.privmsg "#chan" "hello" }

/-- C4, counterexample to the claim as stated: the relay_format pattern
matches the sender identity and the ignore pattern matches the content, yet
because the match produced no `username` capture (and the sender is not the
bridge_name) the code treats the bridge stage as inactive, never consults the
ignore pattern, and a handler still observes the message. -/
theorem bridge_ignore_requires_username_capture :
    (c4RelayRe.captures "relaybot").isSome = true
    ∧ c4IgnoreRe.isMatch "hello" = true
    ∧ processMsg c4Compile (some c4Opts) [("a", donePlugin "A")] () "." none relayMsg
        = Except.ok [Event.execCall "a"] :=
  ⟨rfl, rfl, by decide⟩

/-- A relay regex capturing `username` "alice" from sender "relaybot". -/
def c4uRelayRe : Re :=
  { isMatch := fun _ => true
    captures := fun s =>
      if s = "relaybot" then some { username := some "alice", message := none }
      else none }

/-- A compile oracle whose relay pattern does capture a username. -/
def c4uCompile : String → Option Re :=
  fun s =>
    if s = "relayfmt" then some c4uRelayRe
    else if s = "ignpat" then some c4IgnoreRe
    else none

/-- C4, witness. -/
theorem bridge_ignore_drops_message_witness :
    processMsg c4uCompile (some c4Opts) [("a", donePlugin "A")] () "." none relayMsg
      = Except.ok [] :=
  bridge_ignore_drops_message c4uCompile c4Opts [("a", donePlugin "A")] () "." none
    relayMsg "#chan" "hello" "relaybot" "ignpat" c4IgnoreRe (some "alice")
    rfl rfl (by decide) (Or.inl rfl) (by decide) rfl rfl

/-! ## C6 -/

/-- C6: for a bridged message with a derived bridge user, when
`bridge_remove_zws` is enabled the zero-width spaces are stripped from the
derived username first, and then every literal occurrence of the original
sender identity inside the message prefix is substituted by the cleaned
user (a verbatim, replace-all substring substitution). -/
theorem bridge_user_zws_then_substitution (compile : String → Option Re)
    (opts : List (String × String)) (m : Msg) (target content nick u : String)
    (bm : Option String)
    (hcmd : m.command = IrcCommand.privmsg target content)
    (hnick : m.sourceNick = some nick)
    (hder : bridgeDerive compile opts nick content = Except.ok (some (some u, bm)))
    (hzws : (hmGet "bridge_remove_zws" opts).map toLowerStr = some "true") :
    bridgeRewrite compile (some opts) m
      = Except.ok (some (applyRewrite opts m nick target (some u) bm))
    ∧ (applyRewrite opts m nick target (some u) bm).pfx
      = m.pfx.map (fun s => rustReplace s nick (rustReplace u "\u200B" "")) := by
  constructor
  · simp [bridgeRewrite, hcmd, hnick, hder]
  · cases bm <;> simp [applyRewrite, hzws]

/-- A relay regex capturing a username containing a zero-width space. -/
def c6RelayRe : Re :=
  { isMatch := fun _ => true
    captures := fun s =>
      if s = "bob" then some { username := some "al\u200Bice", message := none }
      else none }

/-- A compile oracle for the relay pattern above. -/
def c6Compile : String → Option Re :=
  fun s => if s = "relayfmt" then some c6RelayRe else none

/-- Bridge options enabling zero-width-space removal (mixed case on purpose). -/
def c6Opts : List (String × String) :=
  [("bridge_relay_format", "relayfmt"), ("bridge_remove_zws", "True")]

/-- A message whose prefix repeats the sender nickname. -/
def c6Msg : Msg :=
  { pfx := some "bob!bob@host"
    sourceNick := some "bob"
    command := IrcCommand.privmsg "#chan" "hello" }

/-- C6, witness: the username "al(zws)ice" is cleaned to "alice" and then
substituted for every occurrence of "bob" in the prefix "bob!bob@host",
yielding "alice!alice@host" (the recurring name is rewritten too). -/
theorem bridge_user_zws_then_substitution_witness :
    (bridgeRewrite c6Compile (some c6Opts) c6Msg
        = Except.ok (some (applyRewrite c6Opts c6Msg "bob" "#chan"
            (some "al\u200Bice") none))
      ∧ (applyRewrite c6Opts c6Msg "bob" "#chan" (some "al\u200Bice") none).pfx
        = c6Msg.pfx.map (fun s =>
            rustReplace s "bob" (rustReplace "al\u200Bice" "\u200B" "")))
    ∧ (applyRewrite c6Opts c6Msg "bob" "#chan" (some "al\u200Bice") none).pfx
        = some "alice!alice@host" :=
  ⟨bridge_user_zws_then_substitution c6Compile c6Opts c6Msg "#chan" "hello" "bob"
      "al\u200Bice" none rfl rfl (by decide) rfl,
   by decide⟩

/-! ## C10 -/

/-- C10: processing a PRIVMSG with bridge options configured panics (rather
than returning an error) whenever the source nickname is absent, or a bridge
pattern it consults fails to compile — relay_format always, ignore when the
stage is active, bridge_regex when the stage is active and the ignore gate
passed; the patterns are recompiled from the configuration on every message,
so the panic recurs per message. -/
theorem bridge_patterns_recompiled_panics {C : Type} (compile : String → Option Re)
    (opts : List (String × String)) (order : List (String × Plugin C)) (client : C)
    (pfxStr : String) (sf : Option String) :
    (∀ (m : Msg) (target content : String),
        m.command = IrcCommand.privmsg target content → m.sourceNick = none →
        processMsg compile (some opts) order client pfxStr sf m
          = Except.error Panic.unwrapNone)
    ∧ (∀ (m : Msg) (target content nick rs : String),
        m.command = IrcCommand.privmsg target content → m.sourceNick = some nick →
        hmGet "bridge_relay_format" opts = some rs → compile rs = none →
        processMsg compile (some opts) order client pfxStr sf m
          = Except.error (Panic.regexUnwrap rs))
    ∧ (∀ (m : Msg) (target content nick ig : String) (bu0 : Option String),
        m.command = IrcCommand.privmsg target content → m.sourceNick = some nick →
        relayUser compile opts nick = Except.ok bu0 →
        (bu0.isSome = true ∨ hmGet "bridge_name" opts = some nick) →
        hmGet "bridge_ignore_regex" opts = some ig → compile ig = none →
        processMsg compile (some opts) order client pfxStr sf m
          = Except.error (Panic.regexUnwrap ig))
    ∧ (∀ (m : Msg) (target content nick bs : String) (bu0 : Option String),
        m.command = IrcCommand.privmsg target content → m.sourceNick = some nick →
        relayUser compile opts nick = Except.ok bu0 →
        (bu0.isSome = true ∨ hmGet "bridge_name" opts = some nick) →
        hmGet "bridge_ignore_regex" opts = none →
        hmGet "bridge_regex" opts = some bs → compile bs = none →
        processMsg compile (some opts) order client pfxStr sf m
          = Except.error (Panic.regexUnwrap bs)) := by
  refine ⟨?_, ?_, ?_, ?_⟩
  · intro m target content hcmd hnick
    simp [processMsg, bridgeRewrite, hcmd, hnick]
  · intro m target content nick rs hcmd hnick hrs hbad
    simp [processMsg, bridgeRewrite, bridgeDerive, relayUser, hcmd, hnick, hrs, hbad]
  · intro m target content nick ig bu0 hcmd hnick hrelay hactive hig hbad
    have hd : bridgeDerive compile opts nick content
        = Except.error (Panic.regexUnwrap ig) := by
      rcases hactive with h | h <;>
        simp [bridgeDerive, hrelay, h, hig, hbad]
    simp [processMsg, bridgeRewrite, hcmd, hnick, hd]
  · intro m target content nick bs bu0 hcmd hnick hrelay hactive hig hbs hbad
    have hd : bridgeDerive compile opts nick content
        = Except.error (Panic.regexUnwrap bs) := by
      rcases hactive with h | h <;>
        simp [bridgeDerive, hrelay, h, hig, hbs, hbad]
    simp [processMsg, bridgeRewrite, hcmd, hnick, hd]

/-- A compile oracle refusing every pattern: every pattern is syntactically
invalid. -/
def badCompile : String → Option Re := fun _ => none

/-- A PRIVMSG carrying no source nickname (server-originated prefix). -/
def noNickMsg : Msg :=
  { pfx := some "irc.example.org"
    sourceNick := none
    command := IrcCommand.privmsg "#chan" "hello" }

/-- Options configuring only an (invalid) relay format. -/
def c10OptsRf : List (String × String) := [("bridge_relay_format", "badrf")]

/-- A compile oracle accepting only the relay format pattern. -/
def c10Compile : String → Option Re :=
  fun s => if s = "relayfmt" then some c4uRelayRe else none

/-- Options with a valid relay format and an invalid ignore pattern. -/
def c10Opts3 : List (String × String) :=
  [("bridge_relay_format", "relayfmt"), ("bridge_ignore_regex", "badpat")]

/-- Options with a valid relay format and an invalid bridge_regex. -/
def c10Opts4 : List (String × String) :=
  [("bridge_relay_format", "relayfmt"), ("bridge_regex", "badpat")]

/-- C10, witness: each panic case at a concrete input. -/
theorem bridge_patterns_recompiled_panics_witness :
    processMsg badCompile (some c10OptsRf) [("a", donePlugin "A")] () "." none noNickMsg
      = Except.error Panic.unwrapNone
    ∧ processMsg badCompile (some c10OptsRf) [("a", donePlugin "A")] () "." none relayMsg
      = Except.error (Panic.regexUnwrap "badrf")
    ∧ processMsg c10Compile (some c10Opts3) [("a", donePlugin "A")] () "." none relayMsg
      = Except.error (Panic.regexUnwrap "badpat")
    ∧ processMsg c10Compile (some c10Opts4) [("a", donePlugin "A")] () "." none relayMsg
      = Except.error (Panic.regexUnwrap "badpat") :=
  ⟨(bridge_patterns_recompiled_panics badCompile c10OptsRf [("a", donePlugin "A")] ()
      "." none).1 noNickMsg "#chan" "hello" rfl rfl,
   (bridge_patterns_recompiled_panics badCompile c10OptsRf [("a", donePlugin "A")] ()
      "." none).2.1 relayMsg "#chan" "hello" "relaybot" "badrf" rfl rfl rfl rfl,
   (bridge_patterns_recompiled_panics c10Compile c10Opts3 [("a", donePlugin "A")] ()
      "." none).2.2.1 relayMsg "#chan" "hello" "relaybot" "badpat" (some "alice")
      rfl rfl (by decide) (Or.inl rfl) (by decide) rfl,
   (bridge_patterns_recompiled_panics c10Compile c10Opts4 [("a", donePlugin "A")] ()
      "." none).2.2.2 relayMsg "#chan" "hello" "relaybot" "badpat" (some "alice")
      rfl rfl (by decide) (Or.inl rfl) (by decide) (by decide) rfl⟩

end Frippy
